import Mathlib

/-!
Verification of the LOF premium calculator (a Cloudflare Workers service).

The development shallowly embeds the TypeScript sources:
* `src/calculator.ts` — pure premium/profit/classification functions and the
  single-shot `calculate()` pipeline;
* `src/batch-calculator.ts` — the batch scheduler (`startBatchCalculation`,
  `processNextBatch`, `generateFinalResult`, `resetProgress`) over a KV store;
* `src/fetcher.ts` — list fetching and record filtering (`fetchLOFList`).

JavaScript numbers are modelled as rationals (`ℚ`); `Number(x.toFixed(2))`
is modelled as rounding to two decimals over `ℚ`.  The KV store is an explicit
record of the four keys the code uses; the network is an `Oracle` record of
response functions, since upstream payloads are external inputs.
-/

namespace LofSpec

/-- Model of `Number(x.toFixed(2))`: round to two decimal places. -/
def round2 (q : ℚ) : ℚ := (round (q * 100) : ℚ) / 100

/-- Keyword list `QDII_KEYWORDS` from calculator.ts line 13 / batch-calculator.ts line 16. -/
def QDII_KEYWORDS : List String :=
  ["QDII", "海外", "美股", "港股", "纳斯达克", "标普", "恒生", "日经"]

/-- Keyword list `COMMODITY_KEYWORDS` from calculator.ts line 14 / batch-calculator.ts line 17. -/
def COMMODITY_KEYWORDS : List String :=
  ["原油", "黄金", "白银", "石油", "贵金属", "商品", "有色"]

/-- Model of JavaScript `s.includes(kw)`: `kw` occurs as a contiguous
substring of `s`. -/
def strIncludes (s kw : String) : Bool :=
  (List.range (s.toList.length + 1)).any (fun i => kw.toList.isPrefixOf (s.toList.drop i))

/-- Type `FundType` from types.ts. -/
inductive FundType where
  | normal
  | qdii
  | commodity
deriving DecidableEq, Repr

/-- Function `detectFundType` (calculator.ts lines 19-27, identical in
batch-calculator.ts lines 24-28). -/
def detectFundType (name : String) : FundType :=
  if QDII_KEYWORDS.any (fun kw => strIncludes name kw) then FundType.qdii
  else if COMMODITY_KEYWORDS.any (fun kw => strIncludes name kw) then FundType.commodity
  else FundType.normal

/-- Function `calculatePremiumRate` (calculator.ts lines 51-54, identical in
batch-calculator.ts lines 30-33). -/
def calculatePremiumRate (marketPrice nav : ℚ) : ℚ :=
  if nav ≤ 0 then 0 else round2 ((marketPrice - nav) / nav * 100)

/-- Constant `PREMIUM_ARBITRAGE_COST` (0.16%). -/
def PREMIUM_ARBITRAGE_COST : ℚ := 0.16

/-- Constant `DISCOUNT_ARBITRAGE_COST` (0.51%). -/
def DISCOUNT_ARBITRAGE_COST : ℚ := 0.51

/-- The net-profit expression inlined at batch-calculator.ts lines 152-154 and
calculator.ts lines 140-142. -/
def netProfitOf (premiumRate : ℚ) : ℚ :=
  if 0 < premiumRate then round2 (premiumRate - PREMIUM_ARBITRAGE_COST)
  else round2 (|premiumRate| - DISCOUNT_ARBITRAGE_COST)

/-- Record `Fund` from types.ts. -/
structure Fund where
  code : String
  name : String
  marketPrice : ℚ
  changePercent : ℚ
deriving DecidableEq, Repr

/-- Record `FundNav` from types.ts. -/
structure FundNav where
  nav : ℚ
  navDate : String
deriving DecidableEq, Repr

/-- Record `DailyPremium` from types.ts. -/
structure DailyPremium where
  date : String
  nav : ℚ
  price : ℚ
  premiumRate : ℚ
deriving DecidableEq, Repr

/-- Record `FundWithPremium` from types.ts (the optional `premiumHistory` is `none`
when the field is absent). -/
structure FundWithPremium extends Fund where
  nav : ℚ
  navDate : String
  fundType : FundType
  premiumRate : ℚ
  navDelayDays : ℤ
  netProfit : ℚ
  premiumHistory : Option (List DailyPremium) := none
deriving DecidableEq, Repr

/-- Status values of `BatchProgress.status`. -/
inductive BatchStatus where
  | idle
  | running
  | completed
  | error
deriving DecidableEq, Repr

/-- Record `BatchProgress` from types.ts; `errMsg` models the optional `error`
field. -/
structure BatchProgress where
  status : BatchStatus
  totalFunds : ℕ
  processedFunds : ℕ
  currentBatch : ℕ
  totalBatches : ℕ
  successCount : ℕ
  startedAt : Option String := none
  completedAt : Option String := none
  errMsg : Option String := none
deriving DecidableEq, Repr

/-- The `arbitrageCosts` component of `CalculationResult`. -/
structure ArbitrageCosts where
  premium : ℚ
  discount : ℚ
deriving DecidableEq, Repr

/-- Record `CalculationResult` from types.ts (without the non-load-bearing `_debug`
block). -/
structure CalculationResult where
  executionTime : String
  successCount : ℕ
  failedCount : ℕ
  premiumFundCount : ℕ
  mostCommonNavDate : String
  arbitrageCosts : ArbitrageCosts
  topPremiumFunds : List FundWithPremium
  allFunds : List FundWithPremium
deriving DecidableEq, Repr

/-- The KV namespace `LOF_CACHE`, restricted to the four keys the code uses:
`batch-progress`, `batch-funds`, `batch-results` and `lof-premium-data`.
`none` models an absent key. -/
structure Store where
  progress : Option BatchProgress := none
  funds : Option (List Fund) := none
  results : Option (List FundWithPremium) := none
  finalResult : Option CalculationResult := none
deriving DecidableEq, Repr

/-- The external feeds and the clock, supplied per run: `navOf` models
`fetchFundNav`, `priceOf` models `fetchHistoricalPrice(code, date)` (which
never resolves to 0: the source returns `price || null`), `navHistoryOf` and
`priceHistoryOf` model the two ten-day history fetches as date-keyed
association lists in iteration order, `navDelayOf` models
`getNavDelayDays` (a pure function of the nav date and the wall clock), and
`nowStr` models `new Date().toISOString()`. -/
structure Oracle where
  navOf : String → Option FundNav
  priceOf : String → String → Option ℚ
  navHistoryOf : String → List (String × ℚ)
  priceHistoryOf : String → List (String × ℚ)
  navDelayOf : String → ℤ
  nowStr : String

/-! ### Most-common-value selection

`mostCommon` (calculator.ts lines 59-73) builds a JS `Map` of occurrence
counts and then scans the map in insertion order keeping the first entry
whose count strictly exceeds the running maximum.  The date-count loop in
`generateFinalResult` (batch-calculator.ts lines 247-259) is the same
algorithm specialised to nav dates.  A JS `Map` is modelled as an
association list: `set` of a present key updates it in place, a new key is
appended. -/

/-- One `counts.set(item, (counts.get(item) || 0) + 1)` step. -/
def insertCount {α : Type} [DecidableEq α] (acc : List (α × ℕ)) (a : α) : List (α × ℕ) :=
  if acc.any (fun p => p.1 = a) then
    acc.map (fun p => if p.1 = a then (p.1, p.2 + 1) else p)
  else acc ++ [(a, 1)]

/-- The counting loop of `mostCommon`. -/
def countsOf {α : Type} [DecidableEq α] (l : List α) : List (α × ℕ) :=
  l.foldl insertCount []

/-- The scanning loop of `mostCommon`: keep the first entry whose count
strictly exceeds the running maximum. -/
def pickMax {α : Type} : List (α × ℕ) → ℕ → Option α → Option α
  | [], _, best => best
  | (a, c) :: rest, maxCount, best =>
    if maxCount < c then pickMax rest c (some a) else pickMax rest maxCount best

/-- Function `mostCommon` (calculator.ts lines 59-73). -/
def mostCommon {α : Type} [DecidableEq α] (l : List α) : Option α :=
  pickMax (countsOf l) 0 none

/-- The inline nav-date vote of `generateFinalResult` (batch-calculator.ts
lines 247-259): same count-and-scan loops over the accumulated funds'
`navDate`s, with `''` when no entry wins. -/
def mostCommonNavDateOf (allFunds : List FundWithPremium) : String :=
  (pickMax (countsOf (allFunds.map (fun f => f.navDate))) 0 none).getD ""

/-! ### Lexicographic string order

`Array.prototype.sort()` on date strings and `localeCompare` on dates are
modelled by code-point lexicographic order; JS sorts are stable, modelled by
`List.insertionSort`. -/

/-- Lexicographic strict order on character lists. -/
def charListLt : List Char → List Char → Bool
  | [], [] => false
  | [], _ :: _ => true
  | _ :: _, [] => false
  | a :: as, b :: bs => if a = b then charListLt as bs else decide (a < b)

/-- String `a` sorts no later than string `b`. -/
def strLeB (a b : String) : Bool := !(charListLt b.toList a.toList)

/-- JS `Set` iteration order over concatenated key lists: first occurrence
kept, later duplicates dropped. -/
def dedupAcc (seen : List String) : List String → List String
  | [] => []
  | a :: rest =>
    if a ∈ seen then dedupAcc seen rest else a :: dedupAcc (a :: seen) rest

/-! ### State machine (src/batch-calculator.ts) -/

/-- Constant `BATCH_SIZE` (batch-calculator.ts line 8). -/
def BATCH_SIZE : ℕ := 10

/-- The progress value `getProgress` fabricates when the key is absent. -/
def defaultProgress : BatchProgress :=
  { status := BatchStatus.idle, totalFunds := 0, processedFunds := 0,
    currentBatch := 0, totalBatches := 0, successCount := 0 }

/-- Function `getProgress` (batch-calculator.ts lines 49-62). -/
def getProgress (s : Store) : BatchProgress :=
  s.progress.getD defaultProgress

/-- Function `startBatchCalculation` (batch-calculator.ts lines 67-91), with the fund
list already fetched.  `Math.ceil(funds.length / BATCH_SIZE)` is ceiling
division. -/
def startBatchCalculation (funds : List Fund) (startedAt : String) (s : Store) :
    Store × BatchProgress :=
  let totalBatches := (funds.length + BATCH_SIZE - 1) / BATCH_SIZE
  let progress : BatchProgress :=
    { status := BatchStatus.running, totalFunds := funds.length,
      processedFunds := 0, currentBatch := 0, totalBatches := totalBatches,
      successCount := 0, startedAt := some startedAt }
  ({ s with funds := some funds, results := some [], progress := some progress },
   progress)

/-- The body of the per-fund loop of `processNextBatch` (batch-calculator.ts
lines 132-171): fetch nav, skip on miss; fetch the close price of the nav
date, skip on miss (a price of 0 is falsy in `if (!price)`); then classify
and compute the derived fields.  The JS spread `{...fund, marketPrice:
price, ...}` overwrites the listed market price with the historical close. -/
def processFund (o : Oracle) (fund : Fund) : Option FundWithPremium :=
  match o.navOf fund.code with
  | none => none
  | some nav =>
    match o.priceOf fund.code nav.navDate with
    | none => none
    | some price =>
      if price = 0 then none
      else
        some { toFund := { fund with marketPrice := price },
               nav := nav.nav, navDate := nav.navDate,
               fundType := detectFundType fund.name,
               premiumRate := calculatePremiumRate price nav.nav,
               navDelayDays := o.navDelayOf nav.navDate,
               netProfit := netProfitOf (calculatePremiumRate price nav.nav) }

/-- The top-10 history enrichment body (batch-calculator.ts lines 209-239,
same code at calculator.ts lines 170-203): merge the two ten-day histories
on date (`new Set` of both key lists, sorted), keep dates where both values
are truthy and nav > 0, sort by date and keep the last ten. -/
def premiumHistoryFor (o : Oracle) (code : String) : List DailyPremium :=
  let navHistory := o.navHistoryOf code
  let priceHistory := o.priceHistoryOf code
  let sortedDates :=
    (dedupAcc [] (navHistory.map Prod.fst ++ priceHistory.map Prod.fst)).insertionSort
      (fun a b => strLeB a b = true)
  let premiumHistory := sortedDates.filterMap (fun date =>
    match navHistory.lookup date, priceHistory.lookup date with
    | some nav, some price =>
      if nav ≠ 0 ∧ price ≠ 0 ∧ 0 < nav then
        some { date := date, nav := nav, price := price,
               premiumRate := round2 ((price - nav) / nav * 100) }
      else none
    | _, _ => none)
  let sorted := premiumHistory.insertionSort (fun a b => strLeB a.date b.date = true)
  sorted.drop (sorted.length - 10)

/-- Function `generateFinalResult` (batch-calculator.ts lines 191-291).  The JS code
mutates the top-ten fund objects, which are shared between `allFunds` and
the sorted premium list; the mutation is modelled by mapping the enrichment
over both lists. -/
def generateFinalResult (o : Oracle) (s : Store) (progress : BatchProgress) : Store :=
  let allFunds := s.results.getD []
  let premiumFunds := allFunds.filter (fun f => 0 < f.premiumRate)
  let sortedPremium := premiumFunds.insertionSort (fun a b => b.premiumRate ≤ a.premiumRate)
  let topForHistory := sortedPremium.take 10
  let enrich := fun (f : FundWithPremium) =>
    if f ∈ topForHistory then
      { f with premiumHistory := some (premiumHistoryFor o f.code) }
    else f
  let result : CalculationResult :=
    { executionTime := o.nowStr,
      successCount := allFunds.length,
      failedCount := progress.totalFunds - allFunds.length,
      premiumFundCount := premiumFunds.length,
      mostCommonNavDate := mostCommonNavDateOf allFunds,
      arbitrageCosts := { premium := PREMIUM_ARBITRAGE_COST,
                          discount := DISCOUNT_ARBITRAGE_COST },
      topPremiumFunds := sortedPremium.map enrich,
      allFunds := allFunds.map enrich }
  { s with finalResult := some result }

/-- Function `processNextBatch` (batch-calculator.ts lines 96-186). -/
def processNextBatch (o : Oracle) (s : Store) : Store × BatchProgress :=
  let progress := getProgress s
  if progress.status ≠ BatchStatus.running then (s, progress)
  else
    match s.funds with
    | none =>
      let p := { progress with
        status := BatchStatus.error
        errMsg := some "基金列表不存在" }
      ({ s with progress := some p }, p)
    | some funds =>
      let startIdx := progress.currentBatch * BATCH_SIZE
      let endIdx := min (startIdx + BATCH_SIZE) funds.length
      if funds.length ≤ startIdx then
        let p := { progress with
          status := BatchStatus.completed
          completedAt := some o.nowStr }
        let s1 : Store := { s with progress := some p }
        (generateFinalResult o s1 p, p)
      else
        let batch := (funds.drop startIdx).take (endIdx - startIdx)
        let results := batch.filterMap (processFund o)
        let newResults := s.results.getD [] ++ results
        let p := { progress with
                   currentBatch := progress.currentBatch + 1,
                   processedFunds := endIdx,
                   successCount := newResults.length }
        ({ s with results := some newResults, progress := some p }, p)

/-- Function `resetProgress` (batch-calculator.ts lines 296-300): delete the three
per-run keys (the cached final report is a different key and is kept). -/
def resetProgress (s : Store) : Store :=
  { s with progress := none, funds := none, results := none }

/-- Iteration of `k` successive `processNextBatch` calls. -/
def iterateBatch (o : Oracle) : ℕ → Store → Store
  | 0, s => s
  | k + 1, s => iterateBatch o k (processNextBatch o s).1

/-! ### Fund-list fetching (src/fetcher.ts) -/

/-- A loosely-typed JSON field value; `undef` models an absent field and
`none` results of conversions model NaN. -/
inductive JVal where
  | undef
  | jnull
  | jstr (s : String)
  | jnum (q : ℚ)
deriving DecidableEq, Repr

/-- One record of the listing feed.  `code` and `name` are the results of
`String(item.f12 || '')` and `String(item.f14 || '')`; the price field `f2`
and change field `f3` are kept raw. -/
structure RawRecord where
  code : String
  name : String
  price : JVal
  change : JVal
deriving DecidableEq, Repr

/-- JS `Number(v)` with string parsing supplied externally (`none` = NaN). -/
def toNumber (parseNum : String → Option ℚ) : JVal → Option ℚ
  | JVal.undef => none
  | JVal.jnull => some 0
  | JVal.jstr s => parseNum s
  | JVal.jnum q => some q

/-- The bond/money-market blocklist of `fetchLOFList` (fetcher.ts line 159). -/
def SKIP_KEYWORDS : List String :=
  ["债券", "货币", "短债", "纯债", "中债", "国债", "信用债", "可转债", "企业债", "政府债", "同业存单"]

/-- The record conversion/filter loop of `fetchLOFList` (fetcher.ts lines
143-172): reject an empty code or name, a `null` or `'-'` price, a price
that is NaN, not positive, above 100 or below 0.5, and blocklisted names. -/
def recordToFund (parseNum : String → Option ℚ) (r : RawRecord) : Option Fund :=
  if r.code = "" ∨ r.name = "" ∨ r.price = JVal.jnull ∨ r.price = JVal.jstr "-" then none
  else
    match toNumber parseNum r.price with
    | none => none
    | some marketPrice =>
      if marketPrice ≤ 0 ∨ 100 < marketPrice ∨ marketPrice < 0.5 then none
      else if SKIP_KEYWORDS.any (fun kw => strIncludes r.name kw) then none
      else some { code := r.code, name := r.name, marketPrice := marketPrice,
                  changePercent := (toNumber parseNum r.change).getD 0 }

/-- Function `fetchLOFList` (fetcher.ts lines 83-173).  `firstDiff = none` models a
first-page response whose `data.diff` is absent, which throws `获取 LOF
列表失败` before anything else; otherwise the records of all pages run
through the conversion filter (an empty record array is truthy in JS and
does not throw). -/
def fetchLOFList (parseNum : String → Option ℚ) (firstDiff : Option (List RawRecord))
    (restRecords : List RawRecord) : Except String (List Fund) :=
  match firstDiff with
  | none => Except.error "获取 LOF 列表失败"
  | some recs => Except.ok ((recs ++ restRecords).filterMap (recordToFund parseNum))

/-- Function `startBatchCalculation` including its `fetchLOFList` call
(batch-calculator.ts line 69): a thrown list error propagates to the caller
before any KV write happens. -/
def startBatchCalculationE (listResult : Except String (List Fund)) (startedAt : String)
    (s : Store) : Store × Except String BatchProgress :=
  match listResult with
  | Except.error e => (s, Except.error e)
  | Except.ok funds =>
    let sp := startBatchCalculation funds startedAt s
    (sp.1, Except.ok sp.2)

/-! ### The single-shot pipeline `calculate` (src/calculator.ts lines 78-234) -/

/-- The per-fund body of step 5 of `calculate` (calculator.ts lines
125-154): require a fetched nav and a price at the shared data date (0 is
falsy in `!historicalPrice`), and drop the fund when its nav date disagrees
with the data date. -/
def calcEntry (o : Oracle) (navMap : List (String × FundNav)) (priceMap : List (String × ℚ))
    (dataDate : String) (fund : Fund) : Option FundWithPremium :=
  match navMap.lookup fund.code, priceMap.lookup fund.code with
  | some nav, some historicalPrice =>
    if historicalPrice = 0 then none
    else if nav.navDate ≠ dataDate then none
    else
      some { toFund := { fund with marketPrice := historicalPrice },
             nav := nav.nav, navDate := nav.navDate,
             fundType := detectFundType fund.name,
             premiumRate := calculatePremiumRate historicalPrice nav.nav,
             navDelayDays := o.navDelayOf nav.navDate,
             netProfit := netProfitOf (calculatePremiumRate historicalPrice nav.nav) }
  | _, _ => none

/-- Function `calculate` (calculator.ts lines 78-234): sort the universe by absolute
day change, keep 30 funds, batch-fetch navs, vote on the data date, fetch
prices at the data date, build the premium entries, rank, and enrich the top
ten (on shared objects, so both output lists see the enrichment). -/
def calcCore (o : Oracle) (allFundsList : List Fund) : CalculationResult :=
  let sortedFunds := allFundsList.insertionSort
    (fun a b => |b.changePercent| ≤ |a.changePercent|)
  let funds := sortedFunds.take 30
  let navMap := (funds.map (fun f => f.code)).filterMap
    (fun c => (o.navOf c).map (fun n => (c, n)))
  let dataDate := (mostCommon (navMap.map (fun p => p.2.navDate))).getD ""
  let priceMap := (navMap.map Prod.fst).filterMap
    (fun c => (o.priceOf c dataDate).map (fun p => (c, p)))
  let fundsWithPremium := funds.filterMap (calcEntry o navMap priceMap dataDate)
  let premiumFunds := fundsWithPremium.filter (fun f => 0 < f.premiumRate)
  let sorted := premiumFunds.insertionSort (fun a b => b.premiumRate ≤ a.premiumRate)
  let top := sorted.take 10
  let enrich := fun (f : FundWithPremium) =>
    if f ∈ top then { f with premiumHistory := some (premiumHistoryFor o f.code) }
    else f
  { executionTime := o.nowStr,
    successCount := fundsWithPremium.length,
    failedCount := funds.length - fundsWithPremium.length,
    premiumFundCount := premiumFunds.length,
    mostCommonNavDate := dataDate,
    arbitrageCosts := { premium := PREMIUM_ARBITRAGE_COST,
                        discount := DISCOUNT_ARBITRAGE_COST },
    topPremiumFunds := sorted.map enrich,
    allFunds := fundsWithPremium.map enrich }

/-- A store whose run has just completed. -/
def completedStoreW : Store :=
  { progress := some
      { status := BatchStatus.completed
        totalFunds := 2
        processedFunds := 2
        currentBatch := 1
        totalBatches := 1
        successCount := 2 } }

/-- An oracle with no reachable upstream. -/
def emptyOracleW : Oracle :=
  { navOf := fun _ => none, priceOf := fun _ _ => none,
    navHistoryOf := fun _ => [], priceHistoryOf := fun _ => [],
    navDelayOf := fun _ => 0, nowStr := "2024-01-05T08:00:00.000Z" }

/-- A store claiming to be running whose fund-list key is gone. -/
def runningNoFundsW : Store :=
  { progress := some
      { status := BatchStatus.running
        totalFunds := 3
        processedFunds := 0
        currentBatch := 0
        totalBatches := 1
        successCount := 0 } }

/-- A store stuck in the error state. -/
def errStoreW : Store :=
  { progress := some
      { status := BatchStatus.error
        totalFunds := 3
        processedFunds := 0
        currentBatch := 0
        totalBatches := 1
        successCount := 0
        errMsg := some "基金列表不存在" } }

/-- A record whose price field is the placeholder `'-'`. -/
def recDashW : RawRecord :=
  { code := "160416", name := "某某基金", price := JVal.jstr "-", change := JVal.jnum 0 }

/-- A record with a clean price of 50. -/
def goodRecW : RawRecord :=
  { code := "501018", name := "好基金", price := JVal.jnum 50, change := JVal.jnum 0 }

/-- The fund `goodRecW` converts to. -/
def fund50W : Fund :=
  { code := "501018", name := "好基金", marketPrice := 50, changePercent := 0 }

/-- The state a batch run is in after `start()` and `k` calls of
`nextBatch()`: the fund list is persisted, a result accumulator exists, and
the persisted progress carries the closed-form counters. -/
def BatchInv (funds : List Fund) (k : ℕ) (s : Store) : Prop :=
  s.funds = some funds ∧
  (∃ res : List FundWithPremium, s.results = some res) ∧
  ∃ p : BatchProgress, s.progress = some p ∧
    p.totalFunds = funds.length ∧
    p.totalBatches = (funds.length + BATCH_SIZE - 1) / BATCH_SIZE ∧
    p.processedFunds = min (k * BATCH_SIZE) funds.length ∧
    p.currentBatch = min k ((funds.length + BATCH_SIZE - 1) / BATCH_SIZE) ∧
    p.status = (if k ≤ (funds.length + BATCH_SIZE - 1) / BATCH_SIZE
      then BatchStatus.running else BatchStatus.completed)

/-! ### Correctness of the majority vote (claim C3) -/

/-- The invariant of the counting fold: `acc` is the count table of the
already-seen prefix `pre`, keyed without duplicates in first-occurrence
order. -/
def CountsWF {α : Type} [DecidableEq α] (pre : List α) (acc : List (α × ℕ)) : Prop :=
  (∀ pr ∈ acc, pr.1 ∈ pre ∧ pr.2 = pre.count pr.1) ∧
  (∀ a ∈ pre, a ∈ acc.map Prod.fst) ∧
  (acc.map Prod.fst).Nodup ∧
  (acc.map Prod.fst).Pairwise (fun a b => pre.indexOf a < pre.indexOf b)

/-- The first test fund of the two-date batch run. -/
def fundA1 : Fund :=
  { code := "000001", name := "基金甲", marketPrice := 1, changePercent := 0 }

/-- The second test fund of the two-date batch run. -/
def fundA2 : Fund :=
  { code := "000002", name := "基金乙", marketPrice := 1, changePercent := 0 }

/-- The two-fund universe used for the batch-run counterexample. -/
def fundsC1 : List Fund := [fundA1, fundA2]

/-- An oracle whose two funds publish navs for different dates (fund 2 lags a
day), both with a close price available at their own nav date. -/
def oC1 : Oracle :=
  { navOf := fun code =>
      if code = "000001" then some { nav := 1, navDate := "2024-01-04" }
      else if code = "000002" then some { nav := 1, navDate := "2024-01-05" }
      else none
    priceOf := fun code date =>
      if code = "000001" ∧ date = "2024-01-04" then some 1
      else if code = "000002" ∧ date = "2024-01-05" then some 1
      else none
    navHistoryOf := fun _ => []
    priceHistoryOf := fun _ => []
    navDelayOf := fun _ => 1
    nowStr := "2024-01-05T08:00:00.000Z" }

/-- The entry `processFund` produces for `fundA1` under `oC1`. -/
def fundA1Entry : FundWithPremium :=
  { code := "000001", name := "基金甲", marketPrice := 1, changePercent := 0,
    nav := 1, navDate := "2024-01-04", fundType := FundType.normal,
    premiumRate := 0, navDelayDays := 1, netProfit := -0.51 }

/-- The entry `processFund` produces for `fundA2` under `oC1`. -/
def fundA2Entry : FundWithPremium :=
  { code := "000002", name := "基金乙", marketPrice := 1, changePercent := 0,
    nav := 1, navDate := "2024-01-05", fundType := FundType.normal,
    premiumRate := 0, navDelayDays := 1, netProfit := -0.51 }

/-- Claim C7: for every price and every nav > 0, `premiumRate(price, nav)`
equals `(price-nav)/nav*100` rounded to 2 decimals; it equals 0 whenever
nav ≤ 0; `premiumRate(10.5, 10) = 5.00`, `premiumRate(9.5, 10) = -5.00`, and
`premiumRate(x, 0) = 0` for any x. -/
theorem calculatePremiumRate_spec :
    (∀ price nav : ℚ, 0 < nav →
      calculatePremiumRate price nav = round2 ((price - nav) / nav * 100)) ∧
    (∀ price nav : ℚ, nav ≤ 0 → calculatePremiumRate price nav = 0) ∧
    calculatePremiumRate 10.5 10 = 5 ∧
    calculatePremiumRate 9.5 10 = -5 ∧
    (∀ price : ℚ, calculatePremiumRate price 0 = 0) := by
  refine ⟨fun price nav h => ?_, fun price nav h => ?_, ?_, ?_, fun price => ?_⟩
  · rw [calculatePremiumRate, if_neg (not_le.mpr h)]
  · rw [calculatePremiumRate, if_pos h]
  · norm_num [calculatePremiumRate, round2, round_eq]
  · norm_num [calculatePremiumRate, round2, round_eq]
  · rw [calculatePremiumRate, if_pos le_rfl]

/-- Witness for C7 at concrete inputs. -/
theorem calculatePremiumRate_spec_witness :
    (0:ℚ) < 10 ∧ calculatePremiumRate 10.5 10 = round2 ((10.5 - 10) / 10 * 100) ∧
    (-3:ℚ) ≤ 0 ∧ calculatePremiumRate 7 (-3) = 0 :=
  ⟨by norm_num, calculatePremiumRate_spec.1 10.5 10 (by norm_num),
   by norm_num, calculatePremiumRate_spec.2.1 7 (-3) (by norm_num)⟩

/-- Claim C8: `netProfit(r)` is `r - 0.16` rounded to 2 decimals when r > 0,
and `abs(r) - 0.51` rounded to 2 decimals otherwise (including r = 0); it is
always computed even when negative; `netProfit(5.00) = 4.84` and
`netProfit(-5.00) = 4.49`. -/
theorem netProfitOf_spec :
    (∀ r : ℚ, 0 < r → netProfitOf r = round2 (r - PREMIUM_ARBITRAGE_COST)) ∧
    (∀ r : ℚ, r ≤ 0 → netProfitOf r = round2 (|r| - DISCOUNT_ARBITRAGE_COST)) ∧
    netProfitOf 5 = 4.84 ∧
    netProfitOf (-5) = 4.49 ∧
    netProfitOf 0 = -0.51 ∧
    netProfitOf 0.1 = -0.06 := by
  refine ⟨fun r h => ?_, fun r h => ?_, ?_, ?_, ?_, ?_⟩
  · rw [netProfitOf, if_pos h]
  · rw [netProfitOf, if_neg (not_lt.mpr h)]
  · norm_num [netProfitOf, round2, round_eq, PREMIUM_ARBITRAGE_COST]
  · norm_num [netProfitOf, round2, round_eq, DISCOUNT_ARBITRAGE_COST, abs_of_nonpos]
  · norm_num [netProfitOf, round2, round_eq, DISCOUNT_ARBITRAGE_COST, abs_of_nonpos]
  · norm_num [netProfitOf, round2, round_eq, PREMIUM_ARBITRAGE_COST]

/-- Witness for C8 at concrete inputs. -/
theorem netProfitOf_spec_witness :
    (0:ℚ) < 5 ∧ netProfitOf 5 = round2 (5 - PREMIUM_ARBITRAGE_COST) ∧
    (-5:ℚ) ≤ 0 ∧ netProfitOf (-5) = round2 (|(-5:ℚ)| - DISCOUNT_ARBITRAGE_COST) :=
  ⟨by norm_num, netProfitOf_spec.1 5 (by norm_num),
   by norm_num, netProfitOf_spec.2.1 (-5) (by norm_num)⟩

/-- Claim C9: `classify(name)` returns qdii if the name contains a QDII
keyword, otherwise commodity if it contains a commodity keyword, otherwise
normal; a name matching both keyword sets classifies as qdii
(first-match-wins); `classify("XX QDII黄金基金") = qdii`. -/
theorem detectFundType_spec :
    (∀ name, (∃ kw ∈ QDII_KEYWORDS, strIncludes name kw = true) →
      detectFundType name = FundType.qdii) ∧
    (∀ name, (¬ ∃ kw ∈ QDII_KEYWORDS, strIncludes name kw = true) →
      (∃ kw ∈ COMMODITY_KEYWORDS, strIncludes name kw = true) →
      detectFundType name = FundType.commodity) ∧
    (∀ name, (¬ ∃ kw ∈ QDII_KEYWORDS, strIncludes name kw = true) →
      (¬ ∃ kw ∈ COMMODITY_KEYWORDS, strIncludes name kw = true) →
      detectFundType name = FundType.normal) ∧
    detectFundType "XX QDII黄金基金" = FundType.qdii := by
  refine ⟨fun name h => ?_, fun name h1 h2 => ?_, fun name h1 h2 => ?_, by decide⟩
  · rw [detectFundType, if_pos (List.any_eq_true.mpr h)]
  · rw [detectFundType, if_neg ?_, if_pos (List.any_eq_true.mpr h2)]
    exact fun hc => h1 (List.any_eq_true.mp hc)
  · rw [detectFundType, if_neg ?_, if_neg ?_]
    · exact fun hc => h2 (List.any_eq_true.mp hc)
    · exact fun hc => h1 (List.any_eq_true.mp hc)

/-- Witness for C9: the mixed QDII/commodity name classifies as qdii. -/
theorem detectFundType_spec_witness :
    (∃ kw ∈ QDII_KEYWORDS, strIncludes "XX QDII黄金基金" kw = true) ∧
    detectFundType "XX QDII黄金基金" = FundType.qdii :=
  ⟨by decide, detectFundType_spec.1 "XX QDII黄金基金" (by decide)⟩

/-! ### Scheduler no-op and error-state facts -/

/-- Function `processNextBatch` returns the stored progress and writes nothing
whenever the status is not `running` (batch-calculator.ts lines 99-101). -/
theorem processNextBatch_of_not_running (o : Oracle) (s : Store)
    (h : (getProgress s).status ≠ BatchStatus.running) :
    processNextBatch o s = (s, getProgress s) := by
  simp only [processNextBatch]
  rw [if_pos h]

/-- Claim C6: whenever `progress.status ≠ running` (idle, completed or
error), `nextBatch()` returns the current progress unchanged and writes no
persisted state; in particular calling it again after completion is
idempotent. -/
theorem processNextBatch_noop_spec (o : Oracle) (s : Store)
    (h : (getProgress s).status ≠ BatchStatus.running) :
    processNextBatch o s = (s, getProgress s) :=
  processNextBatch_of_not_running o s h

/-- Witness for C6: after completion, `nextBatch()` changes nothing. -/
theorem processNextBatch_noop_spec_witness :
    (getProgress completedStoreW).status ≠ BatchStatus.running ∧
    processNextBatch emptyOracleW completedStoreW =
      (completedStoreW, getProgress completedStoreW) :=
  ⟨by decide, processNextBatch_noop_spec emptyOracleW completedStoreW (by decide)⟩

/-- Claim C5 (amended): a `nextBatch()` call that finds the status `running`
but the persisted fund list missing sets status to `error` with the message
`基金列表不存在` and persists it; `nextBatch()` never leaves an `error`
state, and `reset()` returns the store to the idle default.  (Contrary to
the original claim, `start()` also replaces an `error` state: it
unconditionally overwrites progress with a fresh `running` record.) -/
theorem stateCorruption_spec :
    (∀ (o : Oracle) (s : Store), (getProgress s).status = BatchStatus.running →
      s.funds = none →
      (processNextBatch o s).2.status = BatchStatus.error ∧
      (processNextBatch o s).2.errMsg = some "基金列表不存在" ∧
      (processNextBatch o s).1 = { s with progress := some (processNextBatch o s).2 }) ∧
    (∀ (o : Oracle) (s : Store), (getProgress s).status = BatchStatus.error →
      processNextBatch o s = (s, getProgress s)) ∧
    (∀ s : Store, getProgress (resetProgress s) = defaultProgress ∧
      (getProgress (resetProgress s)).status = BatchStatus.idle) :=
  ⟨fun o s h hf => by simp [processNextBatch, hf, h],
   fun o s h => processNextBatch_of_not_running o s (by rw [h]; intro hc; cases hc),
   fun s => ⟨rfl, rfl⟩⟩

/-- Witness for C5: a running store with the fund list missing errors out,
the error is sticky under `nextBatch()`, and `reset()` clears it. -/
theorem stateCorruption_spec_witness :
    ((getProgress runningNoFundsW).status = BatchStatus.running ∧
      runningNoFundsW.funds = none ∧
      (processNextBatch emptyOracleW runningNoFundsW).2.status = BatchStatus.error) ∧
    ((getProgress errStoreW).status = BatchStatus.error ∧
      processNextBatch emptyOracleW errStoreW = (errStoreW, getProgress errStoreW)) ∧
    (getProgress (resetProgress errStoreW)).status = BatchStatus.idle :=
  ⟨⟨by decide, by decide,
    (stateCorruption_spec.1 emptyOracleW runningNoFundsW (by decide) (by decide)).1⟩,
   ⟨by decide, stateCorruption_spec.2.1 emptyOracleW errStoreW (by decide)⟩,
   (stateCorruption_spec.2.2 errStoreW).2⟩

/-- Counterexample to C5 as stated: `start()` (not only `reset()`) clears an
`error` state — it returns the progress to `running`. -/
theorem stateCorruption_counterexample :
    (getProgress errStoreW).status = BatchStatus.error ∧
    (startBatchCalculation [] "2024-01-05T08:00:00.000Z" errStoreW).2.status =
      BatchStatus.running ∧
    (getProgress (startBatchCalculation [] "2024-01-05T08:00:00.000Z" errStoreW).1).status =
      BatchStatus.running := by
  refine ⟨by decide, by decide, by decide⟩

/-- Claim C4 (amended): `start()` surfaces `ListFetchError` exactly when the
first-page response has no `data.diff` field, and then the store is
untouched; when the upstream returns a records field — even one with zero
usable records — `start()` succeeds and sets the progress to `running`. -/
theorem startListError_spec :
    (∀ (parseNum : String → Option ℚ) (restRecords : List RawRecord)
        (startedAt : String) (s : Store),
      startBatchCalculationE (fetchLOFList parseNum none restRecords) startedAt s =
        (s, Except.error "获取 LOF 列表失败")) ∧
    (∀ (parseNum : String → Option ℚ) (recs restRecords : List RawRecord)
        (startedAt : String) (s : Store), ∃ p : BatchProgress,
      (startBatchCalculationE (fetchLOFList parseNum (some recs) restRecords) startedAt s).2 =
        Except.ok p ∧ p.status = BatchStatus.running) :=
  ⟨fun _ _ _ _ => rfl, fun _ _ _ _ _ => ⟨_, rfl, rfl⟩⟩

/-- Counterexample to C4 as stated: an upstream response with a records
field but zero usable records (here a single `'-'`-priced record) does not
fail — `start()` succeeds, mutates the store, and persists a `running`
progress for an empty universe. -/
theorem startListError_counterexample :
    fetchLOFList (fun _ => none) (some [recDashW]) [] = Except.ok [] ∧
    (startBatchCalculationE (fetchLOFList (fun _ => none) (some [recDashW]) []) "t0"
        ({} : Store)).2 =
      Except.ok
        { status := BatchStatus.running
          totalFunds := 0
          processedFunds := 0
          currentBatch := 0
          totalBatches := 0
          successCount := 0
          startedAt := some "t0" } ∧
    (startBatchCalculationE (fetchLOFList (fun _ => none) (some [recDashW]) []) "t0"
        ({} : Store)).1 ≠ ({} : Store) := by
  refine ⟨rfl, rfl, by decide⟩

/-- Claim C10: every fund emitted by `fetchLOFList` has
0.5 ≤ marketPrice ≤ 100: records whose price is missing, `'-'`,
non-numeric, not positive, below 0.5 or above 100 are silently discarded. -/
theorem fetchLOFList_priceBand_spec :
    ∀ (parseNum : String → Option ℚ) (firstDiff : Option (List RawRecord))
      (restRecords : List RawRecord) (funds : List Fund),
      fetchLOFList parseNum firstDiff restRecords = Except.ok funds →
      ∀ f ∈ funds, 0.5 ≤ f.marketPrice ∧ f.marketPrice ≤ 100 := by
  intro parseNum firstDiff restRecords funds h f hf
  cases firstDiff with
  | none => exact absurd h (by simp [fetchLOFList])
  | some recs =>
    rw [fetchLOFList] at h
    cases h
    obtain ⟨r, _, hr⟩ := List.mem_filterMap.mp hf
    rw [recordToFund] at hr
    split at hr
    · exact Option.noConfusion hr
    · cases htn : toNumber parseNum r.price with
      | none => rw [htn] at hr; exact Option.noConfusion hr
      | some mp =>
        rw [htn] at hr
        split at hr
        · exact Option.noConfusion hr
        · rename_i mp2 heq
          cases heq
          split at hr
          · exact Option.noConfusion hr
          · rename_i hband
            push_neg at hband
            split at hr
            · exact Option.noConfusion hr
            · cases hr
              exact ⟨hband.2.2, hband.2.1⟩

/-- Witness for C10: a concrete run of the list filter, and the price band
for the fund it keeps. -/
theorem fetchLOFList_priceBand_spec_witness :
    fetchLOFList (fun _ => none) (some [goodRecW]) [] = Except.ok [fund50W] ∧
    (0.5 ≤ fund50W.marketPrice ∧ fund50W.marketPrice ≤ 100) := by
  have hskip : SKIP_KEYWORDS.any (fun kw => strIncludes "好基金" kw) = false := by decide
  have h1 : fetchLOFList (fun _ => none) (some [goodRecW]) [] = Except.ok [fund50W] := by
    norm_num [fetchLOFList, recordToFund, goodRecW, toNumber, hskip, fund50W,
      List.filterMap_cons, List.filterMap_nil]
    simp
  exact ⟨h1, fetchLOFList_priceBand_spec (fun _ => none) (some [goodRecW]) [] [fund50W] h1
    fund50W (by simp)⟩

/-! ### Progress bookkeeping across batches (claim C2) -/

/-- Evaluation of `processNextBatch` on a running store whose current slice
is empty: the run completes. -/
theorem processNextBatch_eq_complete (o : Oracle) (s : Store) (funds : List Fund)
    (p : BatchProgress) (hp : s.progress = some p) (hf : s.funds = some funds)
    (hrun : p.status = BatchStatus.running)
    (hlen : funds.length ≤ p.currentBatch * BATCH_SIZE) :
    processNextBatch o s =
      (generateFinalResult o
        { s with progress := some { p with
            status := BatchStatus.completed
            completedAt := some o.nowStr } }
        { p with
            status := BatchStatus.completed
            completedAt := some o.nowStr },
       { p with
           status := BatchStatus.completed
           completedAt := some o.nowStr }) := by
  simp [processNextBatch, getProgress, hp, hf, hrun, hlen]

/-- Evaluation of `processNextBatch` on a running store with a non-empty
slice: the slice is processed and the progress advances. -/
theorem processNextBatch_eq_process (o : Oracle) (s : Store) (funds : List Fund)
    (p : BatchProgress) (hp : s.progress = some p) (hf : s.funds = some funds)
    (hrun : p.status = BatchStatus.running)
    (hlen : ¬ funds.length ≤ p.currentBatch * BATCH_SIZE) :
    processNextBatch o s =
      (let startIdx := p.currentBatch * BATCH_SIZE
       let endIdx := min (startIdx + BATCH_SIZE) funds.length
       let newResults := s.results.getD [] ++
         ((funds.drop startIdx).take (endIdx - startIdx)).filterMap (processFund o)
       let p' := { p with
         currentBatch := p.currentBatch + 1
         processedFunds := endIdx
         successCount := newResults.length }
       ({ s with results := some newResults, progress := some p' }, p')) := by
  simp [processNextBatch, getProgress, hp, hf, hrun, hlen]

/-- Function `generateFinalResult` only writes the cached final report. -/
theorem generateFinalResult_keeps_run_state (o : Oracle) (s : Store) (p : BatchProgress) :
    (generateFinalResult o s p).progress = s.progress ∧
    (generateFinalResult o s p).funds = s.funds ∧
    (generateFinalResult o s p).results = s.results :=
  ⟨rfl, rfl, rfl⟩

/-- One `nextBatch()` call preserves the invariant, stepping the call
counter. -/
theorem batchInv_step (o : Oracle) (funds : List Fund) (k : ℕ) (s : Store)
    (h : BatchInv funds k s) : BatchInv funds (k + 1) (processNextBatch o s).1 := by
  obtain ⟨hf, ⟨res, hres⟩, p, hp, hTF, hTB, hPF, hCB, hST⟩ := h
  by_cases hk : k ≤ (funds.length + BATCH_SIZE - 1) / BATCH_SIZE
  · rw [if_pos hk] at hST
    by_cases hlen : funds.length ≤ p.currentBatch * BATCH_SIZE
    · rw [processNextBatch_eq_complete o s funds p hp hf hST hlen]
      refine ⟨hf, ⟨res, hres⟩, _, rfl, hTF, hTB, ?_, ?_, ?_⟩
      · simp only [BATCH_SIZE] at *
        omega
      · simp only [BATCH_SIZE] at *
        omega
      · have hT : ¬ (k + 1 ≤ (funds.length + BATCH_SIZE - 1) / BATCH_SIZE) := by
          simp only [BATCH_SIZE] at *
          omega
        simp only [if_neg hT]
    · rw [processNextBatch_eq_process o s funds p hp hf hST hlen]
      refine ⟨hf, ⟨_, rfl⟩, _, rfl, hTF, hTB, ?_, ?_, ?_⟩
      · simp only [BATCH_SIZE] at *
        omega
      · simp only [BATCH_SIZE] at *
        omega
      · have hT : k + 1 ≤ (funds.length + BATCH_SIZE - 1) / BATCH_SIZE := by
          simp only [BATCH_SIZE] at *
          omega
        simp only [if_pos hT]
        exact hST
  · rw [if_neg hk] at hST
    have hnr : (getProgress s).status ≠ BatchStatus.running := by
      rw [getProgress, hp, Option.getD_some, hST]
      intro hc
      cases hc
    rw [processNextBatch_of_not_running o s hnr]
    refine ⟨hf, ⟨res, hres⟩, p, hp, hTF, hTB, ?_, ?_, ?_⟩
    · simp only [BATCH_SIZE] at *
      omega
    · simp only [BATCH_SIZE] at *
      omega
    · have hT : ¬ (k + 1 ≤ (funds.length + BATCH_SIZE - 1) / BATCH_SIZE) := by
        simp only [BATCH_SIZE] at *
        omega
      rw [hST, if_neg hT]

/-- The invariant holds right after `start()`. -/
theorem batchInv_start (funds : List Fund) (startedAt : String) (s : Store) :
    BatchInv funds 0 (startBatchCalculation funds startedAt s).1 := by
  refine ⟨rfl, ⟨[], rfl⟩, _, rfl, rfl, rfl, ?_, ?_, ?_⟩ <;>
    simp [BATCH_SIZE]

/-- The invariant propagates along `iterateBatch`. -/
theorem batchInv_iterate (o : Oracle) (funds : List Fund) (j k : ℕ) (s : Store)
    (h : BatchInv funds j s) : BatchInv funds (j + k) (iterateBatch o k s) := by
  induction k generalizing j s with
  | zero => exact h
  | succ n ih =>
    rw [iterateBatch]
    have := ih (j + 1) (processNextBatch o s).1 (batchInv_step o funds j s h)
    rwa [Nat.add_right_comm] at this

/-- Claim C2: starting from the state produced by `start()` on a fund
universe of size F with batch size B = 10, after `k` calls of `nextBatch()`
the persisted progress has `processedFunds = min (k*B) F` and
`currentBatch = ceil (processedFunds / B)`, with
`totalBatches = ceil (F / B)`, `processedFunds ≤ totalFunds`, and
`currentBatch` non-decreasing in `k`. -/
theorem batchProgress_spec (o : Oracle) (funds : List Fund) (startedAt : String)
    (s0 : Store) (k : ℕ) :
    (getProgress (iterateBatch o k
        (startBatchCalculation funds startedAt s0).1)).processedFunds =
      min (k * BATCH_SIZE) funds.length ∧
    (getProgress (iterateBatch o k
        (startBatchCalculation funds startedAt s0).1)).currentBatch =
      ((getProgress (iterateBatch o k
        (startBatchCalculation funds startedAt s0).1)).processedFunds
          + BATCH_SIZE - 1) / BATCH_SIZE ∧
    (getProgress (iterateBatch o k
        (startBatchCalculation funds startedAt s0).1)).totalBatches =
      (funds.length + BATCH_SIZE - 1) / BATCH_SIZE ∧
    (getProgress (iterateBatch o k
        (startBatchCalculation funds startedAt s0).1)).processedFunds ≤
      (getProgress (iterateBatch o k
        (startBatchCalculation funds startedAt s0).1)).totalFunds ∧
    (getProgress (iterateBatch o k
        (startBatchCalculation funds startedAt s0).1)).currentBatch ≤
      (getProgress (iterateBatch o (k + 1)
        (startBatchCalculation funds startedAt s0).1)).currentBatch := by
  have hk := batchInv_iterate o funds 0 k (startBatchCalculation funds startedAt s0).1
    (batchInv_start funds startedAt s0)
  have hk1 := batchInv_iterate o funds 0 (k + 1) (startBatchCalculation funds startedAt s0).1
    (batchInv_start funds startedAt s0)
  rw [Nat.zero_add] at hk hk1
  obtain ⟨-, -, p, hp, hTF, hTB, hPF, hCB, -⟩ := hk
  obtain ⟨-, -, q, hq, -, -, -, hCBq, -⟩ := hk1
  rw [getProgress, hp, Option.getD_some, getProgress, hq, Option.getD_some]
  refine ⟨hPF, ?_, hTB, ?_, ?_⟩ <;> simp only [BATCH_SIZE] at * <;> omega

theorem countsWF_insert {α : Type} [DecidableEq α] (pre : List α) (acc : List (α × ℕ))
    (a : α) (h : CountsWF pre acc) : CountsWF (pre ++ [a]) (insertCount acc a) := by
  obtain ⟨h1, h2, h3, h4⟩ := h
  have hmemkeys : ∀ x ∈ acc.map Prod.fst, x ∈ pre := by
    intro x hx
    obtain ⟨pr, hpr, rfl⟩ := List.mem_map.mp hx
    exact (h1 pr hpr).1
  have hidx : ∀ x ∈ pre, (pre ++ [a]).indexOf x = pre.indexOf x :=
    fun x hx => List.indexOf_append_of_mem hx
  by_cases hk : acc.any (fun p => p.1 = a)
  · -- the key is present: update in place
    have hkeys : (insertCount acc a).map Prod.fst = acc.map Prod.fst := by
      rw [insertCount, if_pos hk, List.map_map]
      apply List.map_congr_left
      intro pr _
      by_cases hpa : pr.1 = a <;> simp [hpa]
    have hamem : a ∈ pre := by
      obtain ⟨pr, hpr, hpa⟩ := List.any_eq_true.mp hk
      have := (h1 pr hpr).1
      rwa [of_decide_eq_true hpa] at this
    refine ⟨?_, ?_, ?_, ?_⟩
    · intro pr hpr
      rw [insertCount, if_pos hk] at hpr
      obtain ⟨q, hq, rfl⟩ := List.mem_map.mp hpr
      by_cases hqa : q.1 = a
      · rw [if_pos hqa]
        refine ⟨List.mem_append_left _ (hqa ▸ hamem), ?_⟩
        rw [List.count_append, (h1 q hq).2, hqa]
        simp
      · rw [if_neg hqa]
        refine ⟨List.mem_append_left _ (h1 q hq).1, ?_⟩
        rw [List.count_append, (h1 q hq).2]
        have : [a].count q.1 = 0 := by
          simp [List.count_singleton]
          exact fun hc => hqa hc.symm
        rw [this]
        simp
    · intro x hx
      rw [hkeys]
      rcases List.mem_append.mp hx with hx | hx
      · exact h2 x hx
      · rw [List.mem_singleton.mp hx]
        exact h2 a hamem
    · rw [hkeys]; exact h3
    · rw [hkeys]
      refine h4.imp_of_mem ?_
      intro x y hx hy hxy
      rw [hidx x (hmemkeys x hx), hidx y (hmemkeys y hy)]
      exact hxy
  · -- new key: append with count 1
    have hanotin : a ∉ pre := by
      intro hc
      have := h2 a hc
      obtain ⟨pr, hpr, hpa⟩ := List.mem_map.mp this
      exact hk (List.any_eq_true.mpr ⟨pr, hpr, decide_eq_true hpa⟩)
    have hkeys : (insertCount acc a).map Prod.fst = acc.map Prod.fst ++ [a] := by
      rw [insertCount, if_neg hk, List.map_append]
      rfl
    have hidxa : (pre ++ [a]).indexOf a = pre.length := by
      rw [List.indexOf_append_of_not_mem hanotin]
      simp
    refine ⟨?_, ?_, ?_, ?_⟩
    · intro pr hpr
      rw [insertCount, if_neg hk] at hpr
      rcases List.mem_append.mp hpr with hpr | hpr
      · have hne : pr.1 ≠ a := by
          intro hc
          exact hanotin (hc ▸ (h1 pr hpr).1)
        refine ⟨List.mem_append_left _ (h1 pr hpr).1, ?_⟩
        rw [List.count_append, (h1 pr hpr).2]
        have : [a].count pr.1 = 0 := by
          simp [List.count_singleton]
          exact fun hc => hne hc.symm
        rw [this]
        simp
      · rw [List.mem_singleton.mp hpr]
        refine ⟨List.mem_append_right _ (List.mem_singleton_self a), ?_⟩
        rw [List.count_append]
        have h0 : pre.count a = 0 := List.count_eq_zero.mpr hanotin
        simp [h0]
    · intro x hx
      rw [hkeys]
      rcases List.mem_append.mp hx with hx | hx
      · exact List.mem_append_left _ (h2 x hx)
      · exact List.mem_append_right _ hx
    · rw [hkeys]
      rw [List.nodup_append]
      refine ⟨h3, List.nodup_singleton a, ?_⟩
      intro x hx
      simp only [List.mem_singleton]
      intro hc
      exact hanotin (hc ▸ hmemkeys x hx)
    · rw [hkeys, List.pairwise_append]
      refine ⟨?_, List.pairwise_singleton _ a, ?_⟩
      · refine h4.imp_of_mem ?_
        intro x y hx hy hxy
        rw [hidx x (hmemkeys x hx), hidx y (hmemkeys y hy)]
        exact hxy
      · intro x hx y hy
        rw [List.mem_singleton.mp hy, hidxa, hidx x (hmemkeys x hx)]
        exact List.indexOf_lt_length.mpr (hmemkeys x hx)

theorem countsWF_foldl {α : Type} [DecidableEq α] (l : List α) :
    ∀ (pre : List α) (acc : List (α × ℕ)), CountsWF pre acc →
      CountsWF (pre ++ l) (l.foldl insertCount acc) := by
  induction l with
  | nil => intro pre acc h; simpa using h
  | cons a rest ih =>
    intro pre acc h
    have step := ih (pre ++ [a]) (insertCount acc a) (countsWF_insert pre acc a h)
    rw [List.append_assoc] at step
    simpa using step

theorem countsOf_wf {α : Type} [DecidableEq α] (l : List α) : CountsWF l (countsOf l) := by
  have h0 : CountsWF ([] : List α) [] := by
    refine ⟨?_, ?_, List.nodup_nil, List.Pairwise.nil⟩ <;> intro x hx <;> cases hx
  have := countsWF_foldl l [] [] h0
  simpa [countsOf] using this

/-- Case analysis of the scanning loop: either nothing beats the running
maximum and the incumbent survives, or the result is the first entry
realising the (new, strictly larger) maximum. -/
theorem pickMax_cases {α : Type} (cs : List (α × ℕ)) : ∀ (m : ℕ) (best : Option α),
    ((∀ pr ∈ cs, pr.2 ≤ m) ∧ pickMax cs m best = best) ∨
    (∃ pre x c post, cs = pre ++ (x, c) :: post ∧ m < c ∧
      (∀ pr ∈ pre, pr.2 < c) ∧ (∀ pr ∈ post, pr.2 ≤ c) ∧
      pickMax cs m best = some x) := by
  induction cs with
  | nil =>
    intro m best
    left
    exact ⟨fun pr hpr => absurd hpr (List.not_mem_nil pr), rfl⟩
  | cons hd rest ih =>
    intro m best
    obtain ⟨a, c⟩ := hd
    by_cases hc : m < c
    · rcases ih c (some a) with ⟨hall, heq⟩ | ⟨pre, x, c', post, hcs, hcc, hpre, hpost, heq⟩
      · right
        refine ⟨[], a, c, rest, by simp, hc, by simp, hall, ?_⟩
        rw [pickMax, if_pos hc]
        exact heq
      · right
        refine ⟨(a, c) :: pre, x, c', post, by rw [hcs]; rfl, lt_trans hc hcc, ?_, hpost, ?_⟩
        · intro pr hpr
          rcases List.mem_cons.mp hpr with rfl | hpr
          · exact hcc
          · exact hpre pr hpr
        · rw [pickMax, if_pos hc]
          exact heq
    · rcases ih m best with ⟨hall, heq⟩ | ⟨pre, x, c', post, hcs, hcc, hpre, hpost, heq⟩
      · left
        refine ⟨?_, ?_⟩
        · intro pr hpr
          rcases List.mem_cons.mp hpr with rfl | hpr
          · exact not_lt.mp hc
          · exact hall pr hpr
        · rw [pickMax, if_neg hc]
          exact heq
      · right
        refine ⟨(a, c) :: pre, x, c', post, by rw [hcs]; simp, hcc, ?_, hpost, ?_⟩
        · intro pr hpr
          rcases List.mem_cons.mp hpr with rfl | hpr
          · exact lt_of_le_of_lt (not_lt.mp hc) hcc
          · exact hpre pr hpr
        · rw [pickMax, if_neg hc]
          exact heq

/-- Claim C3: `mostCommon` returns an element of strictly highest frequency;
on a tie the element first encountered in iteration order (smallest first
index) wins.  The nav-date vote of the batch aggregator is the same loop
over the accumulated funds' nav dates. -/
theorem mostCommon_spec {α : Type} [DecidableEq α] (l : List α) (x : α)
    (h : mostCommon l = some x) :
    x ∈ l ∧
    (∀ y, l.count y ≤ l.count x) ∧
    (∀ y, l.count y = l.count x → l.indexOf x ≤ l.indexOf y) ∧
    (∀ funds : List FundWithPremium,
      mostCommonNavDateOf funds = (mostCommon (funds.map (fun f => f.navDate))).getD "") := by
  obtain ⟨hentry, hkeymem, hnodup, horder⟩ := countsOf_wf l
  rcases pickMax_cases (countsOf l) 0 none with ⟨-, heq⟩ | ⟨pre, x', c, post, hcs, hc0, hpre, hpost, heq⟩
  · rw [mostCommon, heq] at h
    exact Option.noConfusion h
  · rw [mostCommon, heq] at h
    have hx : x' = x := Option.some.inj h
    have hxentry : (x', c) ∈ countsOf l := by
      rw [hcs]
      exact List.mem_append_right _ (List.mem_cons_self _ _)
    have hxc := hentry (x', c) hxentry
    have hxl : x' ∈ l := hxc.1
    have hcount : c = l.count x' := hxc.2
    have hboundAll : ∀ pr ∈ countsOf l, pr.2 ≤ c := by
      intro pr hpr
      rw [hcs] at hpr
      rcases List.mem_append.mp hpr with hpr | hpr
      · exact le_of_lt (hpre pr hpr)
      · rcases List.mem_cons.mp hpr with rfl | hpr
        · exact le_rfl
        · exact hpost pr hpr
    refine ⟨hx ▸ hxl, ?_, ?_, fun funds => rfl⟩
    · intro y
      rw [← hx]
      by_cases hyl : y ∈ l
      · obtain ⟨pr, hpr, hpry⟩ := List.mem_map.mp (hkeymem y hyl)
        have := (hentry pr hpr).2
        rw [hpry] at this
        rw [← hcount, ← this]
        exact hboundAll pr hpr
      · rw [List.count_eq_zero.mpr hyl]
        exact Nat.zero_le _
    · intro y hy
      rw [← hx] at hy ⊢
      by_cases hxy : y = x'
      · rw [hxy]
      · have hyl : y ∈ l := by
          by_contra hyl
          rw [List.count_eq_zero.mpr hyl, ← hcount] at hy
          omega
        obtain ⟨pr, hpr, hpry⟩ := List.mem_map.mp (hkeymem y hyl)
        have hprc : pr.2 = c := by
          rw [(hentry pr hpr).2, hpry, hy, hcount]
        rw [hcs] at hpr
        rcases List.mem_append.mp hpr with hpr | hpr
        · exact absurd (hpre pr hpr) (by omega)
        · rcases List.mem_cons.mp hpr with heq2 | hpr
          · exact absurd (congrArg Prod.fst heq2) (by simpa [hpry] using hxy)
          · -- y's entry sits after x' in the key list
            have hkeys : (countsOf l).map Prod.fst =
                pre.map Prod.fst ++ x' :: post.map Prod.fst := by
              rw [hcs, List.map_append]
              rfl
            have horder2 := horder
            rw [hkeys, List.pairwise_append] at horder2
            have hx'post := (List.pairwise_cons.mp horder2.2.1).1
            have : l.indexOf x' < l.indexOf pr.1 :=
              hx'post pr.1 (List.mem_map_of_mem Prod.fst hpr)
            rw [hpry] at this
            exact le_of_lt this

/-- Witness for C3 on a tie: with two dates at frequency two, the first date
encountered wins. -/
theorem mostCommon_spec_witness :
    mostCommon ["2024-01-04", "2024-01-05", "2024-01-05", "2024-01-04"] =
      some "2024-01-04" ∧
    List.count "2024-01-05" ["2024-01-04", "2024-01-05", "2024-01-05", "2024-01-04"] =
      List.count "2024-01-04" ["2024-01-04", "2024-01-05", "2024-01-05", "2024-01-04"] ∧
    List.indexOf "2024-01-04" ["2024-01-04", "2024-01-05", "2024-01-05", "2024-01-04"] ≤
      List.indexOf "2024-01-05" ["2024-01-04", "2024-01-05", "2024-01-05", "2024-01-04"] :=
  ⟨by decide, by decide,
   (mostCommon_spec ["2024-01-04", "2024-01-05", "2024-01-05", "2024-01-04"]
      "2024-01-04" (by decide)).2.2.1 "2024-01-05" (by decide)⟩

/-! ### Date alignment (claim C1) -/

/-- A fund kept by the `calculate()` loop carries the shared data date. -/
theorem calcEntry_navDate (o : Oracle) (navMap : List (String × FundNav))
    (priceMap : List (String × ℚ)) (dataDate : String) (fund : Fund)
    (f : FundWithPremium) (h : calcEntry o navMap priceMap dataDate fund = some f) :
    f.navDate = dataDate := by
  rw [calcEntry] at h
  split at h
  · split at h
    · exact Option.noConfusion h
    · split at h
      · exact Option.noConfusion h
      · rename_i hcond
        cases h
        exact not_not.mp hcond
  · exact Option.noConfusion h

/-- Enrichment only sets `premiumHistory`. -/
theorem enrich_navDate (top : List FundWithPremium) (hist : String → List DailyPremium)
    (f : FundWithPremium) :
    (if f ∈ top then { f with premiumHistory := some (hist f.code) } else f).navDate =
      f.navDate := by
  split <;> rfl

/-- Claim C1 (amended): the exclusion invariant holds for the single-shot
`calculate()` pipeline — every fund in its `allFunds` has `navDate` equal to
`mostCommonNavDate`.  The batch pipeline does not enforce this; it only
guarantees per-fund alignment: each accumulated fund's market price is the
upstream close for that fund's own nav date, which may differ from the
reference date (see the counterexample). -/
theorem navDateAlignment_spec :
    (∀ (o : Oracle) (l : List Fund) (f : FundWithPremium),
      f ∈ (calcCore o l).allFunds → f.navDate = (calcCore o l).mostCommonNavDate) ∧
    (∀ (o : Oracle) (fund : Fund) (f : FundWithPremium),
      processFund o fund = some f →
      o.navOf fund.code = some { nav := f.nav, navDate := f.navDate } ∧
      o.priceOf fund.code f.navDate = some f.marketPrice) := by
  constructor
  · intro o l f hf
    simp only [calcCore] at hf ⊢
    obtain ⟨g, hg, rfl⟩ := List.mem_map.mp hf
    obtain ⟨fund, hfund, hentry⟩ := List.mem_filterMap.mp hg
    exact (enrich_navDate _ _ g).trans (calcEntry_navDate _ _ _ _ _ _ hentry)
  · intro o fund f h
    rw [processFund] at h
    split at h
    · exact Option.noConfusion h
    · rename_i nav hnav
      split at h
      · exact Option.noConfusion h
      · rename_i price hprice
        split at h
        · exact Option.noConfusion h
        · cases h
          exact ⟨hnav, hprice⟩

/-- Witness for C1 at a concrete fund: the price stored with the entry is the
oracle's close for the entry's own nav date. -/
theorem navDateAlignment_spec_witness :
    processFund oC1 fundA1 = some fundA1Entry ∧
    oC1.priceOf fundA1.code fundA1Entry.navDate = some fundA1Entry.marketPrice := by
  have hdA : detectFundType "基金甲" = FundType.normal := by decide
  have hEval : processFund oC1 fundA1 = some fundA1Entry := by
    norm_num [processFund, oC1, fundA1, fundA1Entry, hdA, calculatePremiumRate,
      netProfitOf, round2, round_eq, DISCOUNT_ARBITRAGE_COST]
  exact ⟨hEval, (navDateAlignment_spec.2 oC1 fundA1 fundA1Entry hEval).2⟩

/-- Counterexample to C1 as stated: in the batch pipeline, a completed run
can cache a final result whose `allFunds` contains a fund with a nav date
different from `mostCommonNavDate` — date-disagreeing funds are not excluded
there. -/
theorem batchNavDate_counterexample :
    ((iterateBatch oC1 2 (startBatchCalculation fundsC1 "t0" ({} : Store)).1).finalResult.map
        (fun r => r.allFunds.map (fun f => f.navDate))) =
      some ["2024-01-04", "2024-01-05"] ∧
    ((iterateBatch oC1 2 (startBatchCalculation fundsC1 "t0" ({} : Store)).1).finalResult.map
        (fun r => r.mostCommonNavDate)) = some "2024-01-04" ∧
    ¬ (∀ r : CalculationResult,
        (iterateBatch oC1 2 (startBatchCalculation fundsC1 "t0" ({} : Store)).1).finalResult =
          some r →
        ∀ f ∈ r.allFunds, f.navDate = r.mostCommonNavDate) := by
  have hpr : calculatePremiumRate 1 1 = 0 := by
    norm_num [calculatePremiumRate, round2]
  have hnp : netProfitOf 0 = -0.51 := by
    norm_num [netProfitOf, round2, round_eq, DISCOUNT_ARBITRAGE_COST]
  have hdA : detectFundType "基金甲" = FundType.normal := by decide
  have hdB : detectFundType "基金乙" = FundType.normal := by decide
  have h1 : processFund oC1 fundA1 = some fundA1Entry := by
    simp [processFund, oC1, fundA1, fundA1Entry, hpr, hdA, hnp]
  have h2 : processFund oC1 fundA2 = some fundA2Entry := by
    simp [processFund, oC1, fundA2, fundA2Entry, hpr, hdB, hnp]
  have hrun : (iterateBatch oC1 2 (startBatchCalculation fundsC1 "t0" ({} : Store)).1).finalResult.map
        (fun r => (r.allFunds.map (fun f => f.navDate), r.mostCommonNavDate)) =
      some (["2024-01-04", "2024-01-05"], "2024-01-04") := by
    simp [iterateBatch, startBatchCalculation, processNextBatch, getProgress,
      BATCH_SIZE, fundsC1, h1, h2, fundA1Entry, fundA2Entry,
      generateFinalResult, List.insertionSort, mostCommonNavDateOf, countsOf,
      insertCount, pickMax, defaultProgress, List.filterMap_cons, List.filterMap_nil,
      List.filter_cons, List.filter_nil, List.foldl_cons, List.foldl_nil]
  obtain ⟨r, hr, hproj⟩ := Option.map_eq_some'.mp hrun
  have h1 : r.allFunds.map (fun f => f.navDate) = ["2024-01-04", "2024-01-05"] :=
    congrArg Prod.fst hproj
  have h2 : r.mostCommonNavDate = "2024-01-04" := congrArg Prod.snd hproj
  refine ⟨by rw [hr, Option.map_some', h1], by rw [hr, Option.map_some', h2], ?_⟩
  intro hclaim
  have hmem : "2024-01-05" ∈ r.allFunds.map (fun f => f.navDate) := by
    rw [h1]
    exact List.mem_cons_of_mem _ (List.mem_singleton_self _)
  obtain ⟨f, hfmem, hfdate⟩ := List.mem_map.mp hmem
  have := hclaim r hr f hfmem
  rw [hfdate, h2] at this
  exact absurd this (by decide)

end LofSpec
